import Mathlib

/-!
Verification of the XML-to-JSON transformation core of `xml2json.c`.

The tree-transformation core (`parse_xmlnode`, `parse_xml_element_node`,
`parse_xml_element_attributes`, `parse_xml_text_node`,
`xml_htable_to_json_obj`) is embedded from `src/xml2json.c`.  The ordered
keyed multimap (`htable.c`) and the JSON value library (`json.c`) are not
part of the source tree under `src/`; their behaviour is modelled from the
specification (insertion-ordered multimap, first-insertion-order iteration
over distinct keys, per-key retrieval in insertion order).
-/

/-- Entry type enumeration, embedded from `enum xml_entry_type`
(src/xml2json.c lines 27-34). -/
inductive EntryType where
  | null
  | bool
  | string
  | number
  | array
  | object
deriving DecidableEq, Repr

/-- JSON value tree, modelled from the external JSON library's value space
(`JsonObject` in json.h, not under src/): a tagged variant over
null / bool / number / string / array / object, matching the spec's
`JsonValue` data model.  Members of an object keep insertion order. -/
inductive Json where
  | null : Json
  | bool (b : Bool) : Json
  | number (n : Int) : Json
  | str (s : String) : Json
  | arr (elems : List Json) : Json
  | obj (members : List (String × Json)) : Json
deriving Repr

/-- XML node tree, embedded from the libxml2 node model as the core reads it:
an element has a tag name, an ordered attribute list (each attribute has a
name and a child node list holding its value as a text child, mirroring
`attr->name` / `attr->children`), and an ordered child list; a text node has
raw character content (`node->content`, possibly NULL); any other node kind
is opaque.  A NULL sibling-list head is the empty list. -/
inductive XmlNode where
  | element (name : String) (attrs : List (String × List XmlNode))
      (children : List XmlNode) : XmlNode
  | text (content : Option String) : XmlNode
  | other : XmlNode
deriving Repr

/-- Multimap entry, embedded from `struct xml_htable_entry`
(src/xml2json.c lines 40-46): a key, a type tag, and a value pointer
(NULL is `none`; a string value is stored as `Json.str`). -/
structure XmlHtableEntry where
  key : String
  type : EntryType
  value : Option Json
deriving Repr

/-- Modelled from the spec: `struct xml_htable` wraps the external `htable`
(htable.c, not under src/), an insertion-ordered keyed multimap.  The spec
requires: entries with equal keys are retrievable in the exact order they
were inserted, and ordered iteration visits distinct keys in first-insertion
order.  We model it as the list of entries in insertion order. -/
structure XmlHtable where
  entries : List XmlHtableEntry
deriving Repr

/-- Modelled from the spec: `xml_htable_put` (src/xml2json.c lines 113-127)
appends one entry to the insertion-ordered multimap. -/
def xml_htable_put (ht : XmlHtable) (key : String) (value : Option Json)
    (type : EntryType) : XmlHtable :=
  ⟨ht.entries ++ [⟨key, type, value⟩]⟩

/-- Distinct keys in first-insertion order: keeps the first occurrence of
each key and drops the later ones.  This is the ordered-iteration key
sequence the spec requires of the multimap. -/
def firstSeenKeys : List String → List String
  | [] => []
  | k :: rest => k :: firstSeenKeys (rest.filter (fun x => x ≠ k))
termination_by l => l.length
decreasing_by
  simp only [List.length_cons]
  exact Nat.lt_succ_of_le (List.length_filter_le _ _)

/-- Widening of a stored entry to a JSON value, embedded from the type
dispatch in `xml_htable_to_json_obj` (src/xml2json.c lines 293-324):
a NULL-typed entry becomes `Json.null` (`json_null_obj()`), a string-typed
entry becomes the string value (`json_string_obj(e->value)`), anything else
is the pre-built value itself. -/
def entryJson : EntryType → Option Json → Json
  | .null, _ => .null
  | .string, v => v.getD .null
  | _, v => v.getD .null

/-- Values stored under one key, in insertion order, each widened to JSON.
Embedded from the per-key retrieval loop (`htable_get_next`) of
`xml_htable_to_json_obj`, with the retrieval-plus-prepend combination
modelled from the spec as yielding insertion order. -/
def keyValues (ht : XmlHtable) (k : String) : List Json :=
  (ht.entries.filter (fun e => e.key = k)).map (fun e => entryJson e.type e.value)

/-- Projection of a populated multimap into a JSON object, embedded from
`xml_htable_to_json_obj` (src/xml2json.c lines 275-329): iterate distinct
keys in first-insertion order; a key with more than one entry
(`e->entry.count > 1`) becomes an array of its widened values in insertion
order, a key with exactly one entry becomes that widened value directly. -/
def xml_htable_to_json_obj (ht : XmlHtable) : Json :=
  .obj ((firstSeenKeys (ht.entries.map (fun e => e.key))).map (fun k =>
    let vs := keyValues ht k
    (k, if 1 < vs.length then .arr vs else vs.headD .null)))

/-- Whitespace test, embedded verbatim from the character condition of
`parse_xml_text_node` (src/xml2json.c lines 250-255): space 0x20, the
0x09-0x0A range, 0x0D, plus the redundant checks for CR, LF and 0x0A. -/
def is_xml_dropped_char (c : Char) : Bool :=
  (c.toNat = 0x20) || ((0x9 ≤ c.toNat) && (c.toNat ≤ 0xa)) ||
  (c.toNat = 0xd) || (c = '\r') || (c = '\n') || (c.toNat = 0x0a)

/-- Normalized text content: the raw content with every dropped-whitespace
character removed, remaining characters kept in order (the copy loop of
`parse_xml_text_node`, src/xml2json.c lines 249-259). -/
def normalizeText (s : String) : String :=
  ⟨s.toList.filter (fun c => ¬ is_xml_dropped_char c)⟩

/-- Text node scanner, embedded from `parse_xml_text_node`
(src/xml2json.c lines 234-273).  A NULL `node->content` returns NULL with
the type tag and length out-parameters untouched (the caller's `slen`
stays 0).  Otherwise the content is normalized; an empty result is
classified `ENTRY_TYPE_NULL` (absent) and detaches with length 0, a
non-empty result is classified `ENTRY_TYPE_STRING`.  We return the detached
string together with the written type tag; the detached string's length is
the `slen` out-parameter. -/
def parse_xml_text_node : Option String → Option (String × EntryType)
  | none => none
  | some content =>
      let t := normalizeText content
      if t.length = 0 then some (⟨[]⟩, .null) else some (t, .string)

mutual

/-- Tree walker over a sibling-node list, embedded from `parse_xmlnode`
(src/xml2json.c lines 331-371): a NULL sibling-list head returns NULL with
type tag `ENTRY_TYPE_NULL`; otherwise a fresh multimap is initialised and
the sibling scan runs over it. -/
def parse_xmlnode (nodes : List XmlNode) : Option Json × EntryType :=
  match nodes with
  | [] => (none, .null)
  | n :: rest => parse_xmlnode_scan (n :: rest) ⟨[]⟩
termination_by (sizeOf nodes, 1)
decreasing_by
  all_goals simp_wf
  all_goals apply Prod.Lex.right
  all_goals omega

/-- Sibling scan loop of `parse_xmlnode` (src/xml2json.c lines 345-370):
an element node is aggregated into the level's multimap; a text node whose
detached length is non-zero short-circuits the whole group to that string
(freeing the multimap), while a zero-length one is skipped (`continue`);
any other node kind is skipped; when the scan completes the multimap is
projected to a JSON object with type tag `ENTRY_TYPE_OBJECT`. -/
def parse_xmlnode_scan (nodes : List XmlNode) (ht : XmlHtable) :
    Option Json × EntryType :=
  match nodes with
  | [] => (some (xml_htable_to_json_obj ht), .object)
  | .element name attrs children :: rest =>
      parse_xmlnode_scan rest (parse_xml_element_node name attrs children ht)
  | .text content :: rest =>
      (match parse_xml_text_node content with
       | none => parse_xmlnode_scan rest ht
       | some (val, ty) =>
          if val.length = 0 then parse_xmlnode_scan rest ht
          else (some (.str val), ty))
  | .other :: rest => parse_xmlnode_scan rest ht
termination_by (sizeOf nodes, 0)
decreasing_by
  all_goals simp_wf
  all_goals apply Prod.Lex.left
  all_goals simp_arith

/-- Element aggregator, embedded from `parse_xml_element_node`
(src/xml2json.c lines 201-232) at a non-null node: if the element has
attributes (`node->properties != NULL`), the attribute object is inserted
under the tag name and `has_attr` is recorded; then the child list is
walked; if attributes were present and the body type is `ENTRY_TYPE_NULL`,
the body is not inserted; otherwise the body value is inserted under the
tag name as well. -/
def parse_xml_element_node (name : String)
    (attrs : List (String × List XmlNode)) (children : List XmlNode)
    (ht : XmlHtable) : XmlHtable :=
  match attrs with
  | [] =>
      let r := parse_xmlnode children
      xml_htable_put ht name r.1 r.2
  | a :: arest =>
      let ar := parse_xml_element_attributes (a :: arest)
      let ht1 := xml_htable_put ht name ar.1 ar.2
      let r := parse_xmlnode children
      if r.2 = .null then ht1 else xml_htable_put ht1 name r.1 r.2
termination_by (sizeOf attrs + sizeOf children, 2)
decreasing_by
  all_goals simp_wf
  all_goals have hc : 0 < sizeOf children := by cases children <;> simp_arith
  all_goals apply Prod.Lex.left
  all_goals simp_arith
  all_goals omega

/-- Attribute aggregator, embedded from `parse_xml_element_attributes`
(src/xml2json.c lines 160-199): a NULL attribute list yields NULL with
type tag `ENTRY_TYPE_NULL`; otherwise a fresh JSON object is filled by the
attribute loop and returned with type tag `ENTRY_TYPE_OBJECT`. -/
def parse_xml_element_attributes (attrs : List (String × List XmlNode)) :
    Option Json × EntryType :=
  match attrs with
  | [] => (none, .null)
  | a :: arest =>
      (some (.obj (parse_xml_element_attributes_scan (a :: arest))), .object)
termination_by (sizeOf attrs, 1)
decreasing_by
  all_goals simp_wf
  all_goals apply Prod.Lex.right
  all_goals omega

/-- Attribute loop of `parse_xml_element_attributes` (src/xml2json.c lines
172-195): for each attribute in document order, the key is the attribute
name prefixed with the at sign, and the value is the walk of the
attribute's children; only a value of type `ENTRY_TYPE_STRING` appends a
member, any other type is logged and skipped. -/
def parse_xml_element_attributes_scan
    (attrs : List (String × List XmlNode)) : List (String × Json) :=
  match attrs with
  | [] => []
  | (aname, achildren) :: arest =>
      let r := parse_xmlnode achildren
      if r.2 = .string then
        ("@" ++ aname, r.1.getD .null) :: parse_xml_element_attributes_scan arest
      else
        parse_xml_element_attributes_scan arest
termination_by (sizeOf attrs, 0)
decreasing_by
  all_goals simp_wf
  all_goals apply Prod.Lex.left
  all_goals simp_arith

end

mutual

/-- Deep absence of `Bool` and `Number` tags in a JSON value tree: the
transformation core is claimed never to synthesize either. -/
def json_no_bool_number : Json → Bool
  | .null => true
  | .bool _ => false
  | .number _ => false
  | .str _ => true
  | .arr es => json_list_no_bool_number es
  | .obj ms => json_members_no_bool_number ms

/-- Deep absence of `Bool` and `Number` in every element of a JSON array. -/
def json_list_no_bool_number : List Json → Bool
  | [] => true
  | j :: js => json_no_bool_number j && json_list_no_bool_number js

/-- Deep absence of `Bool` and `Number` in every member value of a JSON
object. -/
def json_members_no_bool_number : List (String × Json) → Bool
  | [] => true
  | m :: ms => json_no_bool_number m.2 && json_members_no_bool_number ms

end

/-- Test for a sibling node that contributes nothing to the walk: a text
node with NULL content, a text node whose normalized content is empty, or
a node of any kind other than element and text.  Element nodes always
reach the aggregator and are therefore never inert. -/
def xml_node_inert : XmlNode → Bool
  | .element _ _ _ => false
  | .text none => true
  | .text (some s) => (normalizeText s).length = 0
  | .other => true

/-- Membership of a type tag in the four-tag subset
{Null, String, Array, Object} that the spec allows the core to produce. -/
def entry_type_in_four : EntryType → Bool
  | .null => true
  | .string => true
  | .array => true
  | .object => true
  | .bool => false
  | .number => false

/-- Invariant of a multimap during the walk: every non-NULL stored value is
free of `Bool` and `Number` tags. -/
def xml_htable_values_ok (ht : XmlHtable) : Prop :=
  ∀ e ∈ ht.entries, ∀ v, e.value = some v → json_no_bool_number v = true

theorem parse_xmlnode_nil : parse_xmlnode [] = (none, .null) := by
  simp [parse_xmlnode]

theorem parse_xmlnode_cons (n : XmlNode) (rest : List XmlNode) :
    parse_xmlnode (n :: rest) = parse_xmlnode_scan (n :: rest) ⟨[]⟩ := by
  simp [parse_xmlnode]

theorem parse_xmlnode_scan_nil (ht : XmlHtable) :
    parse_xmlnode_scan [] ht = (some (xml_htable_to_json_obj ht), .object) := by
  simp [parse_xmlnode_scan]

theorem parse_xmlnode_scan_element (name : String)
    (attrs : List (String × List XmlNode)) (children rest : List XmlNode)
    (ht : XmlHtable) :
    parse_xmlnode_scan (.element name attrs children :: rest) ht =
      parse_xmlnode_scan rest (parse_xml_element_node name attrs children ht) := by
  simp [parse_xmlnode_scan]

theorem parse_xmlnode_scan_text_none (rest : List XmlNode) (ht : XmlHtable) :
    parse_xmlnode_scan (.text none :: rest) ht = parse_xmlnode_scan rest ht := by
  simp [parse_xmlnode_scan, parse_xml_text_node]

theorem parse_xmlnode_scan_text_absent (s : String) (rest : List XmlNode)
    (ht : XmlHtable) (h : normalizeText s = "") :
    parse_xmlnode_scan (.text (some s) :: rest) ht = parse_xmlnode_scan rest ht := by
  simp [parse_xmlnode_scan, parse_xml_text_node, h]

theorem parse_xmlnode_scan_text_present (s : String) (rest : List XmlNode)
    (ht : XmlHtable) (h : normalizeText s ≠ "") :
    parse_xmlnode_scan (.text (some s) :: rest) ht =
      (some (.str (normalizeText s)), .string) := by
  have hlen : (normalizeText s).length ≠ 0 := fun h0 =>
    h (String.ext (List.length_eq_zero.mp h0))
  simp [parse_xmlnode_scan, parse_xml_text_node, hlen]

theorem parse_xmlnode_scan_other (rest : List XmlNode) (ht : XmlHtable) :
    parse_xmlnode_scan (.other :: rest) ht = parse_xmlnode_scan rest ht := by
  simp [parse_xmlnode_scan]

theorem parse_xmlnode_scan_inert (nodes : List XmlNode) (ht : XmlHtable)
    (h : ∀ n ∈ nodes, xml_node_inert n = true) :
    parse_xmlnode_scan nodes ht = (some (xml_htable_to_json_obj ht), .object) := by
  induction nodes with
  | nil => exact parse_xmlnode_scan_nil ht
  | cons n rest ih =>
    have hn := h n (List.mem_cons_self _ _)
    have hrest : ∀ m ∈ rest, xml_node_inert m = true := fun m hm =>
      h m (List.mem_cons_of_mem _ hm)
    cases n with
    | element name attrs children => simp [xml_node_inert] at hn
    | text content =>
      cases content with
      | none => rw [parse_xmlnode_scan_text_none]; exact ih hrest
      | some s =>
        have hs : normalizeText s = "" := by
          simp only [xml_node_inert, decide_eq_true_eq] at hn
          exact String.ext (List.length_eq_zero.mp hn)
        rw [parse_xmlnode_scan_text_absent _ _ _ hs]; exact ih hrest
    | other => rw [parse_xmlnode_scan_other]; exact ih hrest

/-- C10: the tree walker invoked on a null (empty) sibling-list head returns
an absent result (NULL value with type tag Null), not an empty object, and
consequently an element whose child list is empty and that has no
attributes contributes exactly one NULL-typed entry under its tag name to
the parent multimap. -/
theorem claim_C10_null_head :
    parse_xmlnode [] = (none, .null) ∧
    parse_xmlnode [] ≠ (some (.obj []), .object) ∧
    ∀ (name : String) (ht : XmlHtable),
      (parse_xml_element_node name [] [] ht).entries =
        ht.entries ++ [⟨name, .null, none⟩] := by
  refine ⟨parse_xmlnode_nil, by simp [parse_xmlnode], fun name ht => ?_⟩
  simp [parse_xml_element_node, parse_xmlnode, xml_htable_put]

/-- C4, counterexample: the claim includes an element with no children at
all, but the walk of an empty child list returns NULL with type tag Null,
not the empty JSON object. -/
theorem claim_C4_counterexample :
    parse_xmlnode ([] : List XmlNode) = (none, EntryType.null) ∧
    parse_xmlnode ([] : List XmlNode) ≠ (some (Json.obj []), EntryType.object) := by
  exact ⟨parse_xmlnode_nil, by simp [parse_xmlnode]⟩

/-- C4, amended: for every element whose child list is non-empty but
contains no element node and no meaningful text (only inert nodes), the
walk completes without a text short-circuit and returns the empty JSON
object with type tag Object; an empty multimap projects to an empty
object; and the end-to-end whitespace example produces an empty object
body.  (The original claim also covered an element with no children at
all, but an empty child list returns Null instead.) -/
theorem claim_C4_amended :
    (∀ nodes : List XmlNode, nodes ≠ [] →
      (∀ n ∈ nodes, xml_node_inert n = true) →
      parse_xmlnode nodes = (some (.obj []), .object)) ∧
    xml_htable_to_json_obj ⟨[]⟩ = .obj [] ∧
    parse_xmlnode [.element "a" [] [.text (some "  \n ")]] =
      (some (.obj [("a", .obj [])]), .object) := by
  refine ⟨?_, by simp [xml_htable_to_json_obj, firstSeenKeys, keyValues], ?_⟩
  · intro nodes hne h
    match nodes with
    | n :: rest =>
      rw [parse_xmlnode_cons, parse_xmlnode_scan_inert _ _ h]
      simp [xml_htable_to_json_obj, firstSeenKeys, keyValues]
  · simp [parse_xmlnode, parse_xmlnode_scan, parse_xml_element_node,
      parse_xml_element_attributes, parse_xml_element_attributes_scan,
      parse_xml_text_node, normalizeText, is_xml_dropped_char, xml_htable_put,
      xml_htable_to_json_obj, firstSeenKeys, keyValues, entryJson, String.length]

/-- C4, witness for the amended claim at a concrete whitespace-only text
child. -/
theorem claim_C4_witness :
    parse_xmlnode [XmlNode.text (some " ")] = (some (.obj []), .object) :=
  claim_C4_amended.1 [XmlNode.text (some " ")] (by simp)
    (by intro n hn; simp only [List.mem_singleton] at hn; subst hn; decide)

/-- C5, counterexample: converting the document with root element `a`
carrying attribute `x="1"` and one empty child element `b` produces
`{"a":[{"@x":"1"},{"b":null}]}`, which differs from the claimed
`{"a":[{"@x":"1"},{}]}` — the empty child `b` contributes a Null entry
under its own tag, not an empty object body. -/
theorem claim_C5_counterexample :
    parse_xmlnode [.element "a" [("x", [.text (some "1")])] [.element "b" [] []]] =
      (some (.obj [("a", .arr [.obj [("@x", .str "1")], .obj [("b", .null)]])]),
        .object) ∧
    Json.obj [("a", .arr [.obj [("@x", .str "1")], .obj [("b", .null)]])] ≠
      Json.obj [("a", .arr [.obj [("@x", .str "1")], .obj []])] := by
  constructor
  · simp [parse_xmlnode, parse_xmlnode_scan, parse_xml_element_node,
      parse_xml_element_attributes, parse_xml_element_attributes_scan,
      parse_xml_text_node, normalizeText, is_xml_dropped_char, xml_htable_put,
      xml_htable_to_json_obj, firstSeenKeys, keyValues, entryJson, String.length]
  · simp

/-- C5, amended: converting `<a x="1"><b/></a>` produces
`{"a":[{"@x":"1"},{"b":null}]}`: the tag `a` receives two entries (the
attribute object and the body), and the body produced for the walk of `a`'s
child list is `{"b":null}`, the empty child `<b/>` having contributed a
Null entry under `b`. -/
theorem claim_C5_amended :
    parse_xmlnode [.element "a" [("x", [.text (some "1")])] [.element "b" [] []]] =
      (some (.obj [("a", .arr [.obj [("@x", .str "1")], .obj [("b", .null)]])]),
        .object) := by
  simp [parse_xmlnode, parse_xmlnode_scan, parse_xml_element_node,
    parse_xml_element_attributes, parse_xml_element_attributes_scan,
    parse_xml_text_node, normalizeText, is_xml_dropped_char, xml_htable_put,
    xml_htable_to_json_obj, firstSeenKeys, keyValues, entryJson, String.length]

/-- C1: collision policy of the element aggregator.  With attributes
present and a Null body, exactly one entry (the attribute object) is
inserted under the tag; with attributes present and a non-Null body, two
entries are inserted; with no attributes, the body is inserted as the one
entry whatever its type; and end-to-end, an attributes-only element
produces no duplicate entry. -/
theorem claim_C1_collision_policy :
    (∀ (name : String) (a : String × List XmlNode)
        (arest : List (String × List XmlNode)) (children : List XmlNode)
        (ht : XmlHtable),
      (parse_xmlnode children).2 = .null →
        (parse_xml_element_node name (a :: arest) children ht).entries =
          ht.entries ++
            [⟨name, .object, (parse_xml_element_attributes (a :: arest)).1⟩]) ∧
    (∀ (name : String) (a : String × List XmlNode)
        (arest : List (String × List XmlNode)) (children : List XmlNode)
        (ht : XmlHtable),
      (parse_xmlnode children).2 ≠ .null →
        (parse_xml_element_node name (a :: arest) children ht).entries =
          ht.entries ++
            [⟨name, .object, (parse_xml_element_attributes (a :: arest)).1⟩,
             ⟨name, (parse_xmlnode children).2, (parse_xmlnode children).1⟩]) ∧
    (∀ (name : String) (children : List XmlNode) (ht : XmlHtable),
      (parse_xml_element_node name [] children ht).entries =
        ht.entries ++
          [⟨name, (parse_xmlnode children).2, (parse_xmlnode children).1⟩]) ∧
    parse_xmlnode [.element "a" [("x", [.text (some "1")])] []] =
      (some (.obj [("a", .obj [("@x", .str "1")])]), .object) := by
  refine ⟨?_, ?_, ?_, ?_⟩
  · intro name a arest children ht h
    simp [parse_xml_element_node, parse_xml_element_attributes, xml_htable_put, h]
  · intro name a arest children ht h
    simp [parse_xml_element_node, parse_xml_element_attributes, xml_htable_put, h]
  · intro name children ht
    simp [parse_xml_element_node, xml_htable_put]
  · simp [parse_xmlnode, parse_xmlnode_scan, parse_xml_element_node,
      parse_xml_element_attributes, parse_xml_element_attributes_scan,
      parse_xml_text_node, normalizeText, is_xml_dropped_char, xml_htable_put,
      xml_htable_to_json_obj, firstSeenKeys, keyValues, entryJson, String.length]

/-- C1, witness: the collision policy applied to an element with one
attribute and an empty child list inserts the attribute object only. -/
theorem claim_C1_witness :
    (parse_xml_element_node "a" [("x", [XmlNode.text (some "1")])] [] ⟨[]⟩).entries =
      [⟨"a", .object,
        (parse_xml_element_attributes [("x", [XmlNode.text (some "1")])]).1⟩] := by
  simpa using
    claim_C1_collision_policy.1 "a" ("x", [XmlNode.text (some "1")]) [] [] ⟨[]⟩
      (by simp [parse_xmlnode])

/-- C3: text short-circuit in the sibling scan.  A text node whose content
normalizes to a present (non-empty) string makes the scan return that
string immediately with type tag String, for any accumulated multimap
(whose entries are thereby discarded) and any remaining siblings (which
are not examined); a text node normalizing to absent, or with NULL
content, is skipped and the scan continues; end-to-end, mixed content
collapses to the trailing text alone. -/
theorem claim_C3_text_short_circuit :
    (∀ (s : String) (rest : List XmlNode) (ht : XmlHtable),
      normalizeText s ≠ "" →
        parse_xmlnode_scan (.text (some s) :: rest) ht =
          (some (.str (normalizeText s)), .string)) ∧
    (∀ (s : String) (rest : List XmlNode) (ht : XmlHtable),
      normalizeText s = "" →
        parse_xmlnode_scan (.text (some s) :: rest) ht =
          parse_xmlnode_scan rest ht) ∧
    (∀ (rest : List XmlNode) (ht : XmlHtable),
      parse_xmlnode_scan (.text none :: rest) ht = parse_xmlnode_scan rest ht) ∧
    parse_xmlnode
        [.element "a" [] [.element "b" [] [.text (some "1")], .text (some "x")]] =
      (some (.obj [("a", .str "x")]), .object) := by
  refine ⟨parse_xmlnode_scan_text_present, parse_xmlnode_scan_text_absent,
    parse_xmlnode_scan_text_none, ?_⟩
  simp [parse_xmlnode, parse_xmlnode_scan, parse_xml_element_node,
    parse_xml_element_attributes, parse_xml_element_attributes_scan,
    parse_xml_text_node, normalizeText, is_xml_dropped_char, xml_htable_put,
    xml_htable_to_json_obj, firstSeenKeys, keyValues, entryJson, String.length]

/-- C3, witness: a present text node short-circuits past an accumulated
entry and an unexamined later sibling. -/
theorem claim_C3_witness :
    parse_xmlnode_scan [XmlNode.text (some "x"), XmlNode.text (some "z")]
        ⟨[⟨"k", EntryType.null, none⟩]⟩ = (some (.str "x"), .string) := by
  have h := claim_C3_text_short_circuit.1 "x" [XmlNode.text (some "z")]
    ⟨[⟨"k", EntryType.null, none⟩]⟩ (by decide)
  simpa [normalizeText, is_xml_dropped_char] using h

theorem is_xml_dropped_char_iff (c : Char) :
    is_xml_dropped_char c = true ↔
      (c.toNat = 0x20 ∨ c.toNat = 0x9 ∨ c.toNat = 0xa ∨ c.toNat = 0xd) := by
  have hr : (c = '\r') ↔ (c.toNat = 13) := ⟨fun h => by subst h; rfl,
    fun h => Char.ext (UInt32.ext (by simpa [Char.toNat] using h))⟩
  have hn : (c = '\n') ↔ (c.toNat = 10) := ⟨fun h => by subst h; rfl,
    fun h => Char.ext (UInt32.ext (by simpa [Char.toNat] using h))⟩
  simp only [is_xml_dropped_char, Bool.or_eq_true, Bool.and_eq_true,
    decide_eq_true_eq, hr, hn]
  omega

/-- C6: the text normalizer removes exactly the characters with code
0x20, 0x09, 0x0A, 0x0D, at any position, keeping all other characters in
order; a text node is classified absent (type tag Null) exactly when the
normalized string is empty, present (type tag String) with the normalized
string otherwise; and a text node consisting solely of dropped whitespace
characters contributes nothing to the sibling scan. -/
theorem claim_C6_whitespace_normalization :
    (∀ s : String, (normalizeText s).toList =
      s.toList.filter (fun c =>
        !(c.toNat == 0x20 || c.toNat == 0x9 || c.toNat == 0xa || c.toNat == 0xd))) ∧
    (∀ s : String, normalizeText s = "" →
      parse_xml_text_node (some s) = some ("", .null)) ∧
    (∀ s : String, normalizeText s ≠ "" →
      parse_xml_text_node (some s) = some (normalizeText s, .string)) ∧
    (∀ (s : String) (rest : List XmlNode) (ht : XmlHtable),
      (∀ c ∈ s.toList, is_xml_dropped_char c = true) →
      parse_xmlnode_scan (.text (some s) :: rest) ht =
        parse_xmlnode_scan rest ht) := by
  refine ⟨?_, ?_, ?_, ?_⟩
  · intro s
    simp only [normalizeText, String.toList]
    apply List.filter_congr
    intro c _
    have hiff := is_xml_dropped_char_iff c
    cases h : is_xml_dropped_char c
    · rw [h] at hiff
      simp only [Bool.false_eq_true, false_iff] at hiff
      push_neg at hiff
      obtain ⟨h1, h2, h3, h4⟩ := hiff
      simp [h, h1, h2, h3, h4]
    · rw [h] at hiff
      simp only [true_iff] at hiff
      rcases hiff with h1 | h1 | h1 | h1 <;> simp [h, h1]
  · intro s h
    have hlen : (normalizeText s).length = 0 := by rw [h]; rfl
    simp only [parse_xml_text_node, hlen, if_pos]
  · intro s h
    have hlen : (normalizeText s).length ≠ 0 := fun h0 =>
      h (String.ext (List.length_eq_zero.mp h0))
    simp [parse_xml_text_node, hlen]
  · intro s rest ht h
    apply parse_xmlnode_scan_text_absent
    apply String.ext
    apply List.filter_eq_nil_iff.mpr
    intro c hc
    simp [h c hc]

/-- C6, witness: a text node of spaces, a tab, a carriage return and a
newline is skipped by the sibling scan. -/
theorem claim_C6_witness :
    parse_xmlnode_scan [XmlNode.text (some " \t\r\n ")] ⟨[]⟩ =
      parse_xmlnode_scan [] ⟨[]⟩ :=
  claim_C6_whitespace_normalization.2.2.2 " \t\r\n " [] ⟨[]⟩ (by decide)

theorem normalizeText_all_dropped (s : String)
    (h : ∀ c ∈ s.toList, is_xml_dropped_char c = true) : normalizeText s = "" := by
  apply String.ext
  apply List.filter_eq_nil_iff.mpr
  intro c hc
  simp [h c hc]

theorem parse_xml_element_attributes_scan_eq
    (attrs : List (String × List XmlNode)) :
    parse_xml_element_attributes_scan attrs =
      (attrs.filter (fun a => (parse_xmlnode a.2).2 = .string)).map
        (fun a => ("@" ++ a.1, (parse_xmlnode a.2).1.getD .null)) := by
  induction attrs with
  | nil => simp [parse_xml_element_attributes_scan]
  | cons a arest ih =>
    match a with
    | (aname, achildren) =>
      by_cases h : (parse_xmlnode achildren).2 = .string
      · simp [parse_xml_element_attributes_scan, h, ih]
      · simp [parse_xml_element_attributes_scan, h, ih]

/-- C7: attribute namespacing and aggregation.  The attribute loop turns
the attribute list, in document order, into members keyed by the attribute
name prefixed with the at sign (keeping exactly the string-valued ones);
every produced member key is an at-prefixed attribute name, and an
at-prefixed name never equals any unprefixed name, so an attribute `id`
can never collide with a child element named `id`; the aggregator's type
tag is Null for an empty attribute list and Object whenever at least one
attribute exists. -/
theorem claim_C7_attribute_namespacing :
    (∀ attrs : List (String × List XmlNode),
      parse_xml_element_attributes_scan attrs =
        (attrs.filter (fun a => (parse_xmlnode a.2).2 = .string)).map
          (fun a => ("@" ++ a.1, (parse_xmlnode a.2).1.getD .null))) ∧
    (∀ (attrs : List (String × List XmlNode)) (m : String × Json),
      m ∈ parse_xml_element_attributes_scan attrs →
        ∃ a ∈ attrs, m.1 = "@" ++ a.1) ∧
    (∀ s : String, "@" ++ s ≠ s) ∧
    parse_xml_element_attributes [] = (none, .null) ∧
    (∀ (a : String × List XmlNode) (arest : List (String × List XmlNode)),
      parse_xml_element_attributes (a :: arest) =
        (some (.obj (parse_xml_element_attributes_scan (a :: arest))),
          .object)) := by
  have hne : ∀ s : String, "@" ++ s ≠ s := by
    intro s h
    have hlen := congrArg String.length h
    rw [String.length_append] at hlen
    have h1 : "@".length = 1 := rfl
    omega
  refine ⟨parse_xml_element_attributes_scan_eq, ?_, hne, by
    simp [parse_xml_element_attributes], by
    intro a arest; simp [parse_xml_element_attributes]⟩
  intro attrs m hm
  rw [parse_xml_element_attributes_scan_eq] at hm
  simp only [List.mem_map, List.mem_filter] at hm
  obtain ⟨a, ⟨ha, _⟩, hmeq⟩ := hm
  exact ⟨a, ha, by rw [← hmeq]⟩

/-- C7, witness: the attribute `id="7"` on a concrete element produces the
member key at-id, which differs from the bare name `id`. -/
theorem claim_C7_witness :
    (∃ a ∈ [("id", [XmlNode.text (some "7")])],
      (("@id", Json.str "7") : String × Json).1 = "@" ++ a.1) ∧
    "@" ++ "id" ≠ "id" := by
  constructor
  · apply claim_C7_attribute_namespacing.2.1 [("id", [XmlNode.text (some "7")])]
    simp [parse_xml_element_attributes_scan, parse_xmlnode, parse_xmlnode_scan,
      parse_xml_text_node, normalizeText, is_xml_dropped_char, String.length]
  · exact claim_C7_attribute_namespacing.2.2.1 "id"

/-- C8: an attribute whose value does not walk to a string (in particular a
whitespace-only or empty value, which normalizes to absent) adds no member
to the attribute object; the loop neither fails nor aborts, it proceeds to
the remaining attributes, which are aggregated normally. -/
theorem claim_C8_absent_attribute_skipped :
    (∀ (aname : String) (achildren : List XmlNode)
        (arest : List (String × List XmlNode)),
      (parse_xmlnode achildren).2 ≠ .string →
        parse_xml_element_attributes_scan ((aname, achildren) :: arest) =
          parse_xml_element_attributes_scan arest) ∧
    (∀ (aname s : String) (arest : List (String × List XmlNode)),
      (∀ c ∈ s.toList, is_xml_dropped_char c = true) →
        parse_xml_element_attributes_scan ((aname, [.text (some s)]) :: arest) =
          parse_xml_element_attributes_scan arest) ∧
    (∀ (aname : String) (arest : List (String × List XmlNode)),
      parse_xml_element_attributes_scan ((aname, []) :: arest) =
        parse_xml_element_attributes_scan arest) ∧
    parse_xml_element_attributes_scan
        [("x", [.text (some " ")]), ("y", [.text (some "1")])] =
      [("@y", .str "1")] := by
  have h1 : ∀ (aname : String) (achildren : List XmlNode)
      (arest : List (String × List XmlNode)),
      (parse_xmlnode achildren).2 ≠ .string →
        parse_xml_element_attributes_scan ((aname, achildren) :: arest) =
          parse_xml_element_attributes_scan arest := by
    intro aname achildren arest h
    simp [parse_xml_element_attributes_scan, h]
  refine ⟨h1, ?_, ?_, ?_⟩
  · intro aname s arest h
    apply h1
    have hv : parse_xmlnode [.text (some s)] =
        (some (xml_htable_to_json_obj ⟨[]⟩), .object) := by
      rw [parse_xmlnode_cons,
        parse_xmlnode_scan_text_absent _ _ _ (normalizeText_all_dropped s h),
        parse_xmlnode_scan_nil]
    rw [hv]
    simp
  · intro aname arest
    apply h1
    rw [parse_xmlnode_nil]
    simp
  · simp [parse_xml_element_attributes_scan, parse_xmlnode, parse_xmlnode_scan,
      parse_xml_text_node, normalizeText, is_xml_dropped_char,
      xml_htable_to_json_obj, firstSeenKeys, keyValues, entryJson,
      xml_htable_put, String.length]

/-- C8, witness: a whitespace-only attribute value is skipped while the
following attribute is kept. -/
theorem claim_C8_witness :
    parse_xml_element_attributes_scan [("x", [XmlNode.text (some " ")])] =
      parse_xml_element_attributes_scan [] := by
  exact claim_C8_absent_attribute_skipped.2.1 "x" " " [] (by decide)

theorem firstSeenKeys_mem (l : List String) (x : String) :
    x ∈ firstSeenKeys l ↔ x ∈ l := by
  induction l using firstSeenKeys.induct with
  | case1 => simp [firstSeenKeys]
  | case2 k rest ih =>
    rw [firstSeenKeys]
    by_cases hx : x = k
    · simp [hx]
    · simp only [List.mem_cons, hx, false_or]
      rw [ih]
      simp [List.mem_filter, hx]

theorem firstSeenKeys_nodup (l : List String) : (firstSeenKeys l).Nodup := by
  induction l using firstSeenKeys.induct with
  | case1 => simp [firstSeenKeys]
  | case2 k rest ih =>
    rw [firstSeenKeys]
    rw [List.nodup_cons]
    refine ⟨fun hk => ?_, ih⟩
    have := (firstSeenKeys_mem _ _).mp hk
    simp [List.mem_filter] at this

theorem indexOf_filter_lt (p : String → Bool) (l : List String) :
    ∀ (a b : String), a ∈ l.filter p → b ∈ l.filter p →
      (l.filter p).indexOf a < (l.filter p).indexOf b →
      l.indexOf a < l.indexOf b := by
  induction l with
  | nil => simp
  | cons c t ih =>
    intro a b ha hb hlt
    by_cases hpc : p c
    · rw [List.filter_cons_of_pos hpc] at ha hb hlt
      by_cases hac : c = a
      · subst hac
        have hbne : c ≠ b := by
          intro hbc
          subst hbc
          rw [List.indexOf_cons_self] at hlt
          exact absurd hlt (by omega)
        rw [List.indexOf_cons_self, List.indexOf_cons_ne _ hbne]
        exact Nat.succ_pos _
      · by_cases hbc : c = b
        · subst hbc
          rw [List.indexOf_cons_self, List.indexOf_cons_ne _ hac] at hlt
          exact absurd hlt (by omega)
        · rw [List.indexOf_cons_ne _ hac, List.indexOf_cons_ne _ hbc] at hlt
          rw [List.indexOf_cons_ne _ hac, List.indexOf_cons_ne _ hbc]
          have ha' : a ∈ t.filter p := by
            rcases List.mem_cons.mp ha with h | h
            · exact absurd h.symm hac
            · exact h
          have hb' : b ∈ t.filter p := by
            rcases List.mem_cons.mp hb with h | h
            · exact absurd h.symm hbc
            · exact h
          exact Nat.succ_lt_succ (ih a b ha' hb' (Nat.lt_of_succ_lt_succ hlt))
    · rw [List.filter_cons_of_neg hpc] at ha hb hlt
      have hac : c ≠ a := by
        intro h
        subst h
        exact hpc (List.mem_filter.mp ha).2
      have hbc : c ≠ b := by
        intro h
        subst h
        exact hpc (List.mem_filter.mp hb).2
      rw [List.indexOf_cons_ne _ hac, List.indexOf_cons_ne _ hbc]
      exact Nat.succ_lt_succ (ih a b ha hb hlt)

theorem firstSeenKeys_pairwise (l : List String) :
    (firstSeenKeys l).Pairwise (fun a b => l.indexOf a < l.indexOf b) := by
  induction l using firstSeenKeys.induct with
  | case1 => simp [firstSeenKeys]
  | case2 k rest ih =>
    rw [firstSeenKeys]
    apply List.Pairwise.cons
    · intro b hb
      have hbmem := (firstSeenKeys_mem _ _).mp hb
      have hbk : b ≠ k := by simpa using (List.mem_filter.mp hbmem).2
      rw [List.indexOf_cons_self, List.indexOf_cons_ne _ (Ne.symm hbk)]
      exact Nat.succ_pos _
    · refine ih.imp_of_mem ?_
      intro a b ha hb hr
      have ha' := (firstSeenKeys_mem _ _).mp ha
      have hb' := (firstSeenKeys_mem _ _).mp hb
      have hak : a ≠ k := by simpa using (List.mem_filter.mp ha').2
      have hbk : b ≠ k := by simpa using (List.mem_filter.mp hb').2
      have hlt : rest.indexOf a < rest.indexOf b :=
        indexOf_filter_lt _ rest a b ha' hb' hr
      rw [List.indexOf_cons_ne _ (Ne.symm hak),
        List.indexOf_cons_ne _ (Ne.symm hbk)]
      exact Nat.succ_lt_succ hlt

/-- C2: the projector turns a populated multimap into a JSON object whose
member keys are exactly the inserted keys, each exactly once, listed so
that keys compare by the position of their first insertion; a key whose
insertion-ordered widened value list has exactly one element maps to that
value directly, a key with more than one to the array of its values in
insertion order; end-to-end, two same-named siblings yield a two-element
array in document order. -/
theorem claim_C2_projection :
    (∀ ht : XmlHtable, ∃ ms : List (String × Json),
      xml_htable_to_json_obj ht = .obj ms ∧
      (ms.map Prod.fst).Nodup ∧
      (∀ k, k ∈ ms.map Prod.fst ↔ k ∈ ht.entries.map (fun e => e.key)) ∧
      (ms.map Prod.fst).Pairwise (fun k1 k2 =>
        (ht.entries.map (fun e => e.key)).indexOf k1 <
          (ht.entries.map (fun e => e.key)).indexOf k2) ∧
      (∀ k, k ∈ ms.map Prod.fst →
        ((keyValues ht k).length = 1 →
          (k, (keyValues ht k).headD .null) ∈ ms) ∧
        (1 < (keyValues ht k).length → (k, .arr (keyValues ht k)) ∈ ms))) ∧
    parse_xmlnode [.element "a" [] [.element "b" [] [.text (some "1")],
        .element "b" [] [.text (some "2")]]] =
      (some (.obj [("a", .obj [("b", .arr [.str "1", .str "2"])])]), .object) := by
  constructor
  · intro ht
    have hfst : ∀ f : String → Json,
        (((firstSeenKeys (ht.entries.map (fun e => e.key))).map (fun k =>
          (k, f k))).map Prod.fst) =
          firstSeenKeys (ht.entries.map (fun e => e.key)) := by
      intro f
      rw [List.map_map]
      exact List.map_id _
    refine ⟨(firstSeenKeys (ht.entries.map (fun e => e.key))).map (fun k =>
      (k, if 1 < (keyValues ht k).length then .arr (keyValues ht k)
          else (keyValues ht k).headD .null)), ?_, ?_, ?_, ?_, ?_⟩
    · rfl
    · rw [hfst]
      exact firstSeenKeys_nodup _
    · intro k
      rw [hfst]
      exact firstSeenKeys_mem _ _
    · rw [hfst]
      exact firstSeenKeys_pairwise _
    · intro k hk
      rw [hfst] at hk
      have hkmem : k ∈ firstSeenKeys (ht.entries.map (fun e => e.key)) := hk
      constructor
      · intro hone
        have hnot : ¬ 1 < (keyValues ht k).length := by omega
        refine List.mem_map.mpr ⟨k, hkmem, ?_⟩
        simp [hnot]
      · intro hmany
        refine List.mem_map.mpr ⟨k, hkmem, ?_⟩
        simp [hmany]
  · simp [parse_xmlnode, parse_xmlnode_scan, parse_xml_element_node,
      parse_xml_element_attributes, parse_xml_element_attributes_scan,
      parse_xml_text_node, normalizeText, is_xml_dropped_char, xml_htable_put,
      xml_htable_to_json_obj, firstSeenKeys, keyValues, entryJson, String.length]

/-- C2, witness: a multimap holding two string entries under the key `b`
projects to an object containing the two-element array member in insertion
order. -/
theorem claim_C2_witness :
    ∃ ms : List (String × Json),
      xml_htable_to_json_obj ⟨[⟨"b", .string, some (.str "1")⟩,
        ⟨"b", .string, some (.str "2")⟩]⟩ = .obj ms ∧
      ("b", Json.arr [.str "1", .str "2"]) ∈ ms := by
  obtain ⟨ms, h1, _, hmem, _, hval⟩ := claim_C2_projection.1
    ⟨[⟨"b", .string, some (.str "1")⟩, ⟨"b", .string, some (.str "2")⟩]⟩
  refine ⟨ms, h1, ?_⟩
  have hk : "b" ∈ ms.map Prod.fst := (hmem "b").mpr (by simp)
  have harr := (hval "b" hk).2 (by simp [keyValues, entryJson])
  have hkv : keyValues ⟨[⟨"b", .string, some (.str "1")⟩,
      ⟨"b", .string, some (.str "2")⟩]⟩ "b" = [.str "1", .str "2"] := by
    simp [keyValues, entryJson]
  rwa [hkv] at harr

theorem json_list_no_bool_number_iff (es : List Json) :
    json_list_no_bool_number es = true ↔
      ∀ j ∈ es, json_no_bool_number j = true := by
  induction es with
  | nil => simp [json_list_no_bool_number]
  | cons j js ih => simp [json_list_no_bool_number, ih]

theorem json_members_no_bool_number_iff (ms : List (String × Json)) :
    json_members_no_bool_number ms = true ↔
      ∀ m ∈ ms, json_no_bool_number m.2 = true := by
  induction ms with
  | nil => simp [json_members_no_bool_number]
  | cons m ms ih => simp [json_members_no_bool_number, ih]

theorem entryJson_ok (t : EntryType) (v : Option Json)
    (h : ∀ x, v = some x → json_no_bool_number x = true) :
    json_no_bool_number (entryJson t v) = true := by
  cases t <;> cases v <;> simp [entryJson, json_no_bool_number] <;>
    exact h _ rfl

theorem xml_htable_put_values_ok (ht : XmlHtable) (key : String)
    (val : Option Json) (ty : EntryType) (hht : xml_htable_values_ok ht)
    (hval : ∀ v, val = some v → json_no_bool_number v = true) :
    xml_htable_values_ok (xml_htable_put ht key val ty) := by
  intro e he v hv
  simp only [xml_htable_put, List.mem_append, List.mem_singleton] at he
  rcases he with he | he
  · exact hht e he v hv
  · subst he
    exact hval v hv

theorem xml_htable_to_json_obj_ok (ht : XmlHtable)
    (hht : xml_htable_values_ok ht) :
    json_no_bool_number (xml_htable_to_json_obj ht) = true := by
  have hkv : ∀ k j, j ∈ keyValues ht k → json_no_bool_number j = true := by
    intro k j hj
    simp only [keyValues, List.mem_map] at hj
    obtain ⟨e, he, hje⟩ := hj
    have hee : e ∈ ht.entries := (List.mem_filter.mp he).1
    subst hje
    exact entryJson_ok _ _ (fun x hx => hht e hee x hx)
  have hshape : xml_htable_to_json_obj ht =
      .obj ((firstSeenKeys (ht.entries.map (fun e => e.key))).map (fun k =>
        (k, if 1 < (keyValues ht k).length then .arr (keyValues ht k)
            else (keyValues ht k).headD .null))) := rfl
  rw [hshape]
  simp only [json_no_bool_number]
  rw [json_members_no_bool_number_iff]
  intro m hm
  simp only [List.mem_map] at hm
  obtain ⟨k, hk, hmk⟩ := hm
  subst hmk
  by_cases hlen : 1 < (keyValues ht k).length
  · simp only [if_pos hlen, json_no_bool_number]
    rw [json_list_no_bool_number_iff]
    exact fun j hj => hkv k j hj
  · simp only [if_neg hlen]
    cases hc : keyValues ht k with
    | nil => simp [json_no_bool_number]
    | cons j js =>
      simp only [List.headD_cons]
      exact hkv k j (hc ▸ List.mem_cons_self _ _)

theorem parse_xml_text_node_string_of_len (content : Option String)
    (val : String) (ty : EntryType)
    (h : parse_xml_text_node content = some (val, ty))
    (hlen : val.length ≠ 0) : ty = .string := by
  cases content with
  | none => simp [parse_xml_text_node] at h
  | some s =>
    simp only [parse_xml_text_node] at h
    by_cases hz : (normalizeText s).length = 0
    · rw [if_pos hz] at h
      injection h with h'
      simp only [Prod.mk.injEq] at h'
      exact absurd (by rw [← h'.1] : val = ⟨[]⟩) (fun he => hlen (by rw [he]; rfl))
    · rw [if_neg hz] at h
      injection h with h'
      simp only [Prod.mk.injEq] at h'
      exact h'.2.symm

theorem parse_no_bool_number_invariant : ∀ N : Nat,
    (∀ attrs : List (String × List XmlNode), sizeOf attrs ≤ N →
      json_members_no_bool_number (parse_xml_element_attributes_scan attrs) =
        true) ∧
    (∀ attrs : List (String × List XmlNode), sizeOf attrs ≤ N →
      (∀ v, (parse_xml_element_attributes attrs).1 = some v →
        json_no_bool_number v = true) ∧
      ((parse_xml_element_attributes attrs).2 = .null ∨
        (parse_xml_element_attributes attrs).2 = .object)) ∧
    (∀ (name : String) (attrs : List (String × List XmlNode))
        (children : List XmlNode) (ht : XmlHtable),
      sizeOf attrs + sizeOf children ≤ N → xml_htable_values_ok ht →
      xml_htable_values_ok (parse_xml_element_node name attrs children ht)) ∧
    (∀ (nodes : List XmlNode) (ht : XmlHtable), sizeOf nodes ≤ N →
      xml_htable_values_ok ht →
      (∀ v, (parse_xmlnode_scan nodes ht).1 = some v →
        json_no_bool_number v = true) ∧
      ((parse_xmlnode_scan nodes ht).2 = .string ∨
        (parse_xmlnode_scan nodes ht).2 = .object)) ∧
    (∀ nodes : List XmlNode, sizeOf nodes ≤ N →
      (∀ v, (parse_xmlnode nodes).1 = some v → json_no_bool_number v = true) ∧
      ((parse_xmlnode nodes).2 = .null ∨ (parse_xmlnode nodes).2 = .string ∨
        (parse_xmlnode nodes).2 = .object)) := by
  intro N
  induction N using Nat.strong_induction_on with
  | _ N IH =>
  have Hascan : ∀ attrs : List (String × List XmlNode), sizeOf attrs ≤ N →
      json_members_no_bool_number (parse_xml_element_attributes_scan attrs) =
        true := by
    intro attrs hsz
    match attrs with
    | [] => simp [parse_xml_element_attributes_scan, json_members_no_bool_number]
    | (aname, achildren) :: arest =>
      simp only [List.cons.sizeOf_spec, Prod.mk.sizeOf_spec] at hsz
      have hach : sizeOf achildren < N := by omega
      have hrest : sizeOf arest < N := by omega
      have hnode := (IH (sizeOf achildren) hach).2.2.2.2 achildren le_rfl
      have hscanrest := (IH (sizeOf arest) hrest).1 arest le_rfl
      simp only [parse_xml_element_attributes_scan]
      by_cases hstr : (parse_xmlnode achildren).2 = .string
      · rw [if_pos hstr]
        simp only [json_members_no_bool_number, Bool.and_eq_true]
        refine ⟨?_, hscanrest⟩
        cases hv : (parse_xmlnode achildren).1 with
        | none => simp [json_no_bool_number]
        | some v => simp only [Option.getD_some]; exact hnode.1 v hv
      · rw [if_neg hstr]
        exact hscanrest
  have Hattrs : ∀ attrs : List (String × List XmlNode), sizeOf attrs ≤ N →
      (∀ v, (parse_xml_element_attributes attrs).1 = some v →
        json_no_bool_number v = true) ∧
      ((parse_xml_element_attributes attrs).2 = .null ∨
        (parse_xml_element_attributes attrs).2 = .object) := by
    intro attrs hsz
    match attrs with
    | [] =>
      refine ⟨fun v hv => ?_, Or.inl (by simp [parse_xml_element_attributes])⟩
      simp [parse_xml_element_attributes] at hv
    | a :: arest =>
      refine ⟨fun v hv => ?_, Or.inr (by simp [parse_xml_element_attributes])⟩
      simp only [parse_xml_element_attributes] at hv
      injection hv with h'
      rw [← h']
      simp only [json_no_bool_number]
      exact Hascan (a :: arest) hsz
  have Helem : ∀ (name : String) (attrs : List (String × List XmlNode))
      (children : List XmlNode) (ht : XmlHtable),
      sizeOf attrs + sizeOf children ≤ N → xml_htable_values_ok ht →
      xml_htable_values_ok (parse_xml_element_node name attrs children ht) := by
    intro name attrs children ht hsz hht
    have hapos : 0 < sizeOf attrs := by cases attrs <;> simp_arith
    have hcpos : 0 < sizeOf children := by cases children <;> simp_arith
    have hch : sizeOf children < N := by omega
    have hnodech := (IH (sizeOf children) hch).2.2.2.2 children le_rfl
    match attrs with
    | [] =>
      simp only [parse_xml_element_node]
      exact xml_htable_put_values_ok _ _ _ _ hht (fun v hv => hnodech.1 v hv)
    | a :: arest =>
      have hattrs := Hattrs (a :: arest) (by omega)
      simp only [parse_xml_element_node]
      by_cases hnull : (parse_xmlnode children).2 = .null
      · rw [if_pos hnull]
        exact xml_htable_put_values_ok _ _ _ _ hht (fun v hv => hattrs.1 v hv)
      · rw [if_neg hnull]
        exact xml_htable_put_values_ok _ _ _ _
          (xml_htable_put_values_ok _ _ _ _ hht (fun v hv => hattrs.1 v hv))
          (fun v hv => hnodech.1 v hv)
  have Hscan : ∀ (nodes : List XmlNode) (ht : XmlHtable), sizeOf nodes ≤ N →
      xml_htable_values_ok ht →
      (∀ v, (parse_xmlnode_scan nodes ht).1 = some v →
        json_no_bool_number v = true) ∧
      ((parse_xmlnode_scan nodes ht).2 = .string ∨
        (parse_xmlnode_scan nodes ht).2 = .object) := by
    intro nodes ht hsz hht
    match nodes with
    | [] =>
      rw [parse_xmlnode_scan_nil]
      refine ⟨fun v hv => ?_, Or.inr rfl⟩
      injection hv with h'
      rw [← h']
      exact xml_htable_to_json_obj_ok ht hht
    | .element name attrs children :: rest =>
      simp only [List.cons.sizeOf_spec, XmlNode.element.sizeOf_spec] at hsz
      have hrest : sizeOf rest < N := by omega
      rw [parse_xmlnode_scan_element]
      exact (IH (sizeOf rest) hrest).2.2.2.1 rest _ le_rfl
        (Helem name attrs children ht (by omega) hht)
    | .text content :: rest =>
      simp only [List.cons.sizeOf_spec, XmlNode.text.sizeOf_spec] at hsz
      have hrest : sizeOf rest < N := by omega
      cases content with
      | none =>
        rw [parse_xmlnode_scan_text_none]
        exact (IH (sizeOf rest) hrest).2.2.2.1 rest ht le_rfl hht
      | some s =>
        by_cases hz : (normalizeText s).length = 0
        · rw [parse_xmlnode_scan_text_absent _ _ _
            (String.ext (List.length_eq_zero.mp hz))]
          exact (IH (sizeOf rest) hrest).2.2.2.1 rest ht le_rfl hht
        · rw [parse_xmlnode_scan_text_present _ _ _
            (fun he => hz (by rw [he]; rfl))]
          refine ⟨fun v hv => ?_, Or.inl rfl⟩
          injection hv with h'
          rw [← h']
          simp [json_no_bool_number]
    | .other :: rest =>
      simp only [List.cons.sizeOf_spec] at hsz
      have hrest : sizeOf rest < N := by omega
      rw [parse_xmlnode_scan_other]
      exact (IH (sizeOf rest) hrest).2.2.2.1 rest ht le_rfl hht
  have Hnode : ∀ nodes : List XmlNode, sizeOf nodes ≤ N →
      (∀ v, (parse_xmlnode nodes).1 = some v → json_no_bool_number v = true) ∧
      ((parse_xmlnode nodes).2 = .null ∨ (parse_xmlnode nodes).2 = .string ∨
        (parse_xmlnode nodes).2 = .object) := by
    intro nodes hsz
    match nodes with
    | [] =>
      refine ⟨fun v hv => ?_, Or.inl (by rw [parse_xmlnode_nil])⟩
      rw [parse_xmlnode_nil] at hv
      simp at hv
    | n :: rest =>
      rw [parse_xmlnode_cons]
      have hempty : xml_htable_values_ok ⟨[]⟩ := by
        intro e he
        simp at he
      have h := Hscan (n :: rest) ⟨[]⟩ hsz hempty
      exact ⟨h.1, h.2.elim (fun x => Or.inr (Or.inl x))
        (fun x => Or.inr (Or.inr x))⟩
  exact ⟨Hascan, Hattrs, Helem, Hscan, Hnode⟩

/-- C9: the transformation never synthesizes a Bool or Number: every JSON
value produced by the walk is deeply free of Bool and Number tags, and the
type tags reported by the walk, the text scanner and the attribute
aggregator always lie in {Null, String, Array, Object}. -/
theorem claim_C9_no_bool_number :
    (∀ nodes : List XmlNode,
      (∀ v, (parse_xmlnode nodes).1 = some v → json_no_bool_number v = true) ∧
      entry_type_in_four (parse_xmlnode nodes).2 = true) ∧
    (∀ (content : Option String) (r : String × EntryType),
      parse_xml_text_node content = some r → entry_type_in_four r.2 = true) ∧
    (∀ attrs : List (String × List XmlNode),
      entry_type_in_four (parse_xml_element_attributes attrs).2 = true) := by
  refine ⟨?_, ?_, ?_⟩
  · intro nodes
    have h := (parse_no_bool_number_invariant (sizeOf nodes)).2.2.2.2 nodes le_rfl
    refine ⟨h.1, ?_⟩
    rcases h.2 with ht | ht | ht <;> rw [ht] <;> rfl
  · intro content r h
    cases content with
    | none => simp [parse_xml_text_node] at h
    | some s =>
      simp only [parse_xml_text_node] at h
      by_cases hz : (normalizeText s).length = 0
      · rw [if_pos hz] at h
        injection h with h'
        rw [← h']
        rfl
      · rw [if_neg hz] at h
        injection h with h'
        rw [← h']
        rfl
  · intro attrs
    have h := ((parse_no_bool_number_invariant (sizeOf attrs)).2.1 attrs le_rfl).2
    rcases h with ht | ht <;> rw [ht] <;> rfl

/-- C9, witness: the end-to-end value of a concrete document is deeply free
of Bool and Number. -/
theorem claim_C9_witness :
    json_no_bool_number (Json.obj [("a", Json.obj [("@x", Json.str "1")])]) =
      true := by
  apply (claim_C9_no_bool_number.1
    [XmlNode.element "a" [("x", [XmlNode.text (some "1")])] []]).1
  simp [parse_xmlnode, parse_xmlnode_scan, parse_xml_element_node,
    parse_xml_element_attributes, parse_xml_element_attributes_scan,
    parse_xml_text_node, normalizeText, is_xml_dropped_char, xml_htable_put,
    xml_htable_to_json_obj, firstSeenKeys, keyValues, entryJson, String.length]

/-- C10, witness: a concrete attribute-less element with an empty child
list contributes the single NULL-typed entry under its tag. -/
theorem claim_C10_witness :
    (parse_xml_element_node "b" [] [] ⟨[]⟩).entries =
      [⟨"b", EntryType.null, none⟩] := by
  simpa using claim_C10_null_head.2.2 "b" ⟨[]⟩
